import Mathlib

/-!
Verification development for the Nervus training/test framework
(`src/lib/framework.py`, `src/models/net.py`, `src/train.py`, `src/test.py`).

The Python code is shallowly embedded: pure fragments become Lean
functions, stateful fragments become explicit state passing, filesystem
effects become an explicit association list of files, and fallible
fragments return `Except`.  Loss values (Python floats) are modelled
as rationals, which is adequate for the comparison/ordering logic the
claims are about.
-/

namespace Nervus

/-! ## Checkpoint weight files (`SaveLoadMixin.save_weight`, framework.py 505-528)

The on-disk state is modelled as an association list from file name to
file content (the weight blob).  `save_weight` returns the new
filesystem together with the number of `torch.save` calls it performed
(0 or 1), so that "the tensor data is not written a second time" is
observable. -/

/-- Python `str.zfill(width)`: left-pad with '0' up to `width`. -/
def zfill (width : Nat) (s : String) : String :=
  if s.length < width then String.mk (List.replicate (width - s.length) '0') ++ s else s

/-- `'weight_epoch-' + str(epoch).zfill(3) + '.pt'` (framework.py 515). -/
def weight_file_name (epoch : Nat) : String :=
  "weight_epoch-" ++ zfill 3 (toString epoch) ++ ".pt"

/-- `'weight_epoch-' + str(epoch).zfill(3) + '_best' + '.pt'` (framework.py 519). -/
def best_weight_file_name (epoch : Nat) : String :=
  "weight_epoch-" ++ zfill 3 (toString epoch) ++ "_best" ++ ".pt"

/-- A directory: file name ↦ content, as an association list. -/
abbrev FS (W : Type) := List (String × W)

/-- Write (create or overwrite) a file. -/
def fsWrite {W : Type} (fs : FS W) (name : String) (w : W) : FS W :=
  (name, w) :: fs.filter (fun p => p.1 ≠ name)

/-- Content of a file, if present. -/
def fsLookup {W : Type} (fs : FS W) (name : String) : Option W :=
  (fs.find? (fun p => p.1 = name)).map Prod.snd

/-- `Path.exists()`. -/
def fsExists {W : Type} (fs : FS W) (name : String) : Bool :=
  fs.any (fun p => p.1 = name)

/-- `Path.rename(new)`: move the content of `old` to `new`
(overwriting `new` if present, POSIX semantics); no-op if `old` is absent. -/
def fsRename {W : Type} (fs : FS W) (old new : String) : FS W :=
  match fsLookup fs old with
  | some w => fsWrite (fs.filter (fun p => p.1 ≠ old)) new w
  | none => fs

/-- `SaveLoadMixin.save_weight(as_best)` (framework.py 505-528), acting on
the weights directory `fs` with the in-memory `acting_best_epoch` and
`acting_best_weight`.  Second component: number of `torch.save` calls. -/
def save_weight {W : Type} (fs : FS W) (acting_best_epoch : Nat) (acting_best_weight : W)
    (as_best : Bool) : FS W × Nat :=
  let save_path := weight_file_name acting_best_epoch
  if as_best then
    let save_path_as_best := best_weight_file_name acting_best_epoch
    if fsExists fs save_path then
      (fsRename fs save_path save_path_as_best, 0)
    else
      (fsWrite fs save_path_as_best acting_best_weight, 1)
  else
    (fsWrite fs save_path acting_best_weight, 1)

/-- The files of the directory that belong to a given epoch
(the non-best and the best name for that epoch). -/
def epoch_weight_files {W : Type} (fs : FS W) (epoch : Nat) : FS W :=
  fs.filter (fun p => p.1 = weight_file_name epoch ∨ p.1 = best_weight_file_name epoch)

lemma best_weight_file_name_ne (epoch : Nat) :
    weight_file_name epoch ≠ best_weight_file_name epoch := by
  intro h
  have hl := congrArg String.length h
  have h5 : ("_best" : String).length = 5 := rfl
  simp only [weight_file_name, best_weight_file_name, String.length_append, h5] at hl
  omega

/-- **C1.** For any starting directory, any epoch and any weight blob:
after `save_weight(as_best=False)` and then `save_weight(as_best=True)` for
the same epoch, the directory holds exactly one weight file for that epoch,
namely the best-named file carrying the content written by the first call
(the non-best file was renamed in place), and the second call performed
zero `torch.save` writes. -/
theorem save_weight_best_after_nonbest {W : Type} (fs : FS W) (epoch : Nat) (w w2 : W) :
    epoch_weight_files (save_weight (save_weight fs epoch w false).1 epoch w2 true).1 epoch
      = [(best_weight_file_name epoch, w)] ∧
    (save_weight (save_weight fs epoch w false).1 epoch w2 true).2 = 0 := by
  have h1 : (save_weight fs epoch w false).1 = fsWrite fs (weight_file_name epoch) w := rfl
  have hex : fsExists (fsWrite fs (weight_file_name epoch) w) (weight_file_name epoch) = true := by
    simp [fsExists, fsWrite]
  have h2 : save_weight (fsWrite fs (weight_file_name epoch) w) epoch w2 true
      = (fsRename (fsWrite fs (weight_file_name epoch) w) (weight_file_name epoch)
          (best_weight_file_name epoch), 0) := by
    simp [save_weight, hex]
  rw [h1, h2]
  refine ⟨?_, rfl⟩
  have hlook : fsLookup (fsWrite fs (weight_file_name epoch) w) (weight_file_name epoch)
      = some w := by
    simp only [fsLookup, fsWrite]
    rw [List.find?_cons_of_pos _ (by simp)]
    rfl
  simp only [fsRename, hlook]
  simp only [fsWrite, epoch_weight_files]
  rw [List.filter_cons_of_pos (by simp)]
  congr 1
  rw [List.filter_eq_nil_iff]
  intro a ha
  simp only [List.mem_filter, decide_eq_true_eq] at ha
  obtain ⟨⟨-, ha1⟩, ha2⟩ := ha
  simp only [decide_eq_true_eq]
  rintro (h | h)
  · exact ha1 h
  · exact ha2 h

/-! ## Test-split reconciliation (`TestModelParam.__init__`, framework.py 268-281)

Python's `set(a) < set(b)` is strict subset on the sets of elements, so
the two lists are compared through `List.toFinset`. -/

/-- The split alignment of framework.py 272-281: `splits_in_df_source`
is `sp.df_source['split'].unique().tolist()`, `test_splits` is the
caller-requested list. -/
def align_test_splits (splits_in_df_source test_splits : List String) : List String :=
  if splits_in_df_source.toFinset ⊂ test_splits.toFinset then
    splits_in_df_source
  else if test_splits.toFinset ⊂ splits_in_df_source.toFinset then
    test_splits
  else
    test_splits

/-- **C2.** The resolved test splits obey the subset rule: if the data
source's splits are a strict subset of the requested ones, the data
source's splits are used; if the requested splits are a strict subset of
the available ones, the requested splits are used; otherwise the
requested splits are used as given.  In particular requested
`[train, val, test]` against available `[test]` resolves to `[test]`, and
requested `[val, test]` against available `[train, val, test]` resolves
to `[val, test]`. -/
theorem align_test_splits_subset_rule (src req : List String) :
    (src.toFinset ⊂ req.toFinset → align_test_splits src req = src) ∧
    (req.toFinset ⊂ src.toFinset → align_test_splits src req = req) ∧
    (¬ src.toFinset ⊂ req.toFinset → align_test_splits src req = req) ∧
    align_test_splits ["test"] ["train", "val", "test"] = ["test"] ∧
    align_test_splits ["train", "val", "test"] ["val", "test"] = ["val", "test"] := by
  refine ⟨?_, ?_, ?_, ?_, ?_⟩
  · intro h; simp [align_test_splits, h]
  · intro h
    have h' : ¬ src.toFinset ⊂ req.toFinset := fun hc => (ssubset_asymm hc) h
    simp [align_test_splits, h', h]
  · intro h
    by_cases h2 : req.toFinset ⊂ src.toFinset <;> simp [align_test_splits, h, h2]
  · decide
  · decide

/-- Witness for `align_test_splits_subset_rule`: the external-dataset case
(`available = [test]` strictly below `requested = [train, val, test]`). -/
theorem align_test_splits_subset_rule_witness :
    (["test"] : List String).toFinset ⊆ ["train", "val", "test"].toFinset ∧
    align_test_splits ["test"] ["train", "val", "test"] = ["test"] :=
  ⟨by decide, (align_test_splits_subset_rule ["test"] ["train", "val", "test"]).1 (by decide)⟩

/-! ## Required architecture fields at test time (`TestModelParam.__init__`, framework.py 229-250)

The persisted `parameters.json` is modelled as a partial map
`String → Option V`; the attribute store of the parameter object
likewise (the caller-supplied attributes copied by
`BaseModelParam.__init__` are the starting map).  The loop
`for _param in required_for_test: setattr(self, _param, parameters.get(_param))`
overwrites each required attribute with the persisted value — and with
`None` when the key is absent, as the source comment says
(`# If no exists, set None`). -/

/-- The `required_for_test` list of framework.py 233-248. -/
def required_for_test : List String :=
  ["task", "model", "normalize_image", "in_channel", "vit_image_size", "gpu_ids",
   "mlp", "net", "input_list", "label_list", "mlp_num_inputs",
   "num_outputs_for_label", "period_name", "scaler_path"]

/-- The `setattr` loop of framework.py 249-250 over the attribute store. -/
def setattr_required_loop {V : Type} (self parameters : String → Option V) :
    String → Option V :=
  required_for_test.foldl (fun acc p => fun q => if q = p then parameters p else acc q) self

inductive ConfigError where
  | missingField (name : String)
deriving DecidableEq

/-- Modelled from the spec's words (refinement target for C3, not from the
source): a loader that raises a fatal configuration error on the first
required architecture field missing from the persisted configuration. -/
def load_required_spec {V : Type} (parameters : String → Option V) :
    Except ConfigError (List (String × V)) :=
  required_for_test.mapM fun p =>
    match parameters p with
    | some v => Except.ok (p, v)
    | none => Except.error (ConfigError.missingField p)

lemma foldl_setattr_not_mem {V : Type} (l : List String) (f parameters : String → Option V)
    (p : String) (hp : p ∉ l) :
    l.foldl (fun acc q => fun r => if r = q then parameters q else acc r) f p = f p := by
  induction l generalizing f with
  | nil => rfl
  | cons a t ih =>
      have hpa : p ≠ a := fun h => hp (h ▸ List.mem_cons_self a t)
      have hpt : p ∉ t := fun h => hp (List.mem_cons_of_mem a h)
      simp only [List.foldl_cons]
      rw [ih _ hpt]
      simp [hpa]

lemma foldl_setattr_mem {V : Type} (l : List String) (f parameters : String → Option V)
    (p : String) (hp : p ∈ l) :
    l.foldl (fun acc q => fun r => if r = q then parameters q else acc r) f p = parameters p := by
  induction l generalizing f with
  | nil => exact absurd hp (List.not_mem_nil p)
  | cons a t ih =>
      simp only [List.foldl_cons]
      by_cases hpt : p ∈ t
      · exact ih _ hpt
      · have hpa : p = a := by
          rcases List.mem_cons.1 hp with h | h
          · exact h
          · exact absurd h hpt
        rw [foldl_setattr_not_mem _ _ _ _ hpt]
        simp [hpa]

/-- **C3 (amended).** Every field named in `required_for_test` is
overwritten with the value read from the persisted configuration — `none`
(Python `None`) when the key is missing — and never with the test-time
caller's value; fields outside the list are left untouched.  No
configuration error is raised by this loop. -/
theorem setattr_required_loop_spec {V : Type} (self parameters : String → Option V)
    (p : String) :
    (p ∈ required_for_test → setattr_required_loop self parameters p = parameters p) ∧
    (p ∉ required_for_test → setattr_required_loop self parameters p = self p) := by
  constructor
  · intro hp; exact foldl_setattr_mem _ _ _ _ hp
  · intro hp; exact foldl_setattr_not_mem _ _ _ _ hp

/-- Witness for `setattr_required_loop_spec`: the `task` field is taken
from the persisted map, not from the caller-supplied attribute. -/
theorem setattr_required_loop_spec_witness :
    setattr_required_loop (V := Nat) (fun _ => some 3) (fun _ => some 7) "task" = some 7 :=
  (setattr_required_loop_spec (fun _ => some 3) (fun _ => some 7) "task").1 (by decide)

/-- **C3 counterexample.** With a persisted configuration missing every
key (e.g. an empty `parameters.json`), the construction-time loop sets
the required field `task` to `None` and completes — it does not raise a
configuration error — even though the caller supplied a value; the
spec-modelled loader `load_required_spec` would have failed fatally on
the same input. -/
theorem setattr_required_missing_field_defaults_to_none :
    setattr_required_loop (V := Nat) (fun _ => some 0) (fun _ => none) "task" = none ∧
    load_required_spec (V := Nat) (fun _ => none)
      = Except.error (ConfigError.missingField "task") := by
  constructor
  · rfl
  · rfl

/-! ## Batch forwarding (`MLPModel.forward` framework.py 613-618,
`CVModel.forward` framework.py 649-654)

A tensor is modelled as its payload tagged with the device it resides
on; `Tensor.to` is `torch.Tensor.to(device)`.  The attributes touched by
`forward` form the state record; the network is an abstract function on
tensors. -/

structure Tensor (α : Type) where
  device : String
  data : α
deriving DecidableEq

/-- `tensor.to(device)`. -/
def Tensor.to {α : Type} (t : Tensor α) (d : String) : Tensor α :=
  { t with device := d }

/-- Attributes of `MLPModel` involved in `forward`.  `input` (singular) is
the attribute created by line 617; it is distinct from `inputs`. -/
structure MLPForwardState (α β : Type) where
  device : String
  network : Tensor α → β
  inputs : Tensor α
  input : Option (Tensor α)
  multi_output : Option β

/-- `MLPModel.forward` (framework.py 613-618):
`self.input = self.inputs.to(self.device); self.multi_output = self.network(self.inputs)`. -/
def MLPModel_forward {α β : Type} (s : MLPForwardState α β) : MLPForwardState α β :=
  { s with
    input := some (s.inputs.to s.device),
    multi_output := some (s.network s.inputs) }

/-- Attributes of `CVModel` involved in `forward`. -/
structure CVForwardState (α β : Type) where
  device : String
  network : Tensor α → β
  image : Tensor α
  multi_output : Option β

/-- `CVModel.forward` (framework.py 649-654):
`self.image = self.image.to(self.device); self.multi_output = self.network(self.image)`. -/
def CVModel_forward {α β : Type} (s : CVForwardState α β) : CVForwardState α β :=
  { s with
    image := s.image.to s.device,
    multi_output := some (s.network (s.image.to s.device)) }

/-- **C5 (code bug).** With the compute device `cuda:0` and a batch whose
`inputs` tensor resides on `cpu`, `MLPModel.forward` stores the
device-moved tensor into the otherwise unused attribute `input` but
invokes the network on the original, un-moved `inputs` tensor (still on
`cpu`), contrary to the claim that every variant invokes the network on
device-resident inputs; the sibling `CVModel.forward` on the same data
does invoke the network on the moved tensor. -/
theorem mlp_forward_runs_network_on_unmoved_inputs :
    (MLPModel_forward
        { device := "cuda:0", network := id,
          inputs := { device := "cpu", data := (7 : Nat) },
          input := none, multi_output := none }).multi_output
      = some { device := "cpu", data := 7 } ∧
    (MLPModel_forward
        { device := "cuda:0", network := id,
          inputs := { device := "cpu", data := (7 : Nat) },
          input := none, multi_output := none }).input
      = some { device := "cuda:0", data := 7 } ∧
    (CVModel_forward
        { device := "cuda:0", network := id,
          image := { device := "cpu", data := (7 : Nat) },
          multi_output := none }).multi_output
      = some { device := "cuda:0", data := 7 } ∧
    "cpu" ≠ "cuda:0" := by
  refine ⟨rfl, rfl, rfl, by decide⟩

/-! ## Multi-head classifier (`BaseNet.construct_multi_classifier`, net.py 116-165)

Torchvision backbones are external; their classifier in-features and
native dropout rate enter as abstract functions of the backbone name,
and the borrowed ConvNeXt normalization/flatten modules are opaque layer
constructors.  A head is the list of its layers (`nn.Sequential`); the
head dictionary keeps the insertion order of the label map. -/

inductive Layer where
  | linear (in_features out_features : Nat)
  | dropout (p : ℚ)
  | layerNorm
  | flattenLayer
deriving DecidableEq

/-- `BaseNet.mlp_config['hidden_channels']` (net.py 59-62). -/
def mlp_hidden_channels : List Nat := [256, 256, 256]

/-- `BaseNet.construct_multi_classifier` (net.py 116-165).
`in_features_of name` abstracts the `in_features` of the torchvision
backbone's native classifier, `dropout_of name` its native dropout
rate. -/
def construct_multi_classifier (in_features_of : String → Nat) (dropout_of : String → ℚ)
    (net_name : String) (num_classes_in_internal_label : List (String × Nat)) :
    List (String × List Layer) :=
  if net_name = "MLP" then
    num_classes_in_internal_label.map
      (fun p => (p.1, [Layer.linear (mlp_hidden_channels.getLastD 0) p.2]))
  else if net_name.startsWith "ResNet" ∨ net_name.startsWith "DenseNet" then
    num_classes_in_internal_label.map
      (fun p => (p.1, [Layer.linear (in_features_of net_name) p.2]))
  else if net_name.startsWith "B" then
    num_classes_in_internal_label.map
      (fun p => (p.1, [Layer.dropout (dropout_of net_name),
                       Layer.linear (in_features_of net_name) p.2]))
  else if net_name.startsWith "ConvNeXt" then
    num_classes_in_internal_label.map
      (fun p => (p.1, [Layer.layerNorm, Layer.flattenLayer,
                       Layer.linear (in_features_of net_name) p.2]))
  else
    num_classes_in_internal_label.map
      (fun p => (p.1, [Layer.linear (in_features_of net_name) p.2]))

/-- Output dimension of a head's final layer, when that layer is linear. -/
def final_linear_out (head : List Layer) : Option Nat :=
  match head.getLast? with
  | some (Layer.linear _ o) => some o
  | _ => none

/-- **C6.** For every label-cardinality map and every backbone name, the
constructed classifier has exactly one head per label (same keys, same
order) and each head's final linear layer has output dimension equal to
that label's cardinality; in particular for labels `A ↦ 2, B ↦ 3` there
are exactly two heads with output dimensions 2 and 3. -/
theorem construct_multi_classifier_heads (in_features_of : String → Nat)
    (dropout_of : String → ℚ) (net_name : String)
    (ncs : List (String × Nat)) :
    (construct_multi_classifier in_features_of dropout_of net_name ncs).map
        (fun q => (q.1, final_linear_out q.2))
      = ncs.map (fun p => (p.1, some p.2)) ∧
    (construct_multi_classifier in_features_of dropout_of net_name [("A", 2), ("B", 3)]).map
        (fun q => (q.1, final_linear_out q.2))
      = [("A", some 2), ("B", some 3)] := by
  have key : ∀ (l : List (String × Nat)),
      (construct_multi_classifier in_features_of dropout_of net_name l).map
          (fun q => (q.1, final_linear_out q.2))
        = l.map (fun p => (p.1, some p.2)) := by
    intro l
    unfold construct_multi_classifier
    split
    · simp [List.map_map, final_linear_out, Function.comp]
    · split
      · simp [List.map_map, final_linear_out, Function.comp]
      · split
        · simp [List.map_map, final_linear_out, Function.comp]
        · split
          · simp [List.map_map, final_linear_out, Function.comp]
          · simp [List.map_map, final_linear_out, Function.comp]
  exact ⟨key ncs, key [("A", 2), ("B", 3)]⟩

/-! ## Persisted configuration map (`BaseModelParam.save_parameter`, framework.py 111-141)

The Python `no_save` literal is
`['dataloaders', 'device', 'isTrain' 'datetime', 'save_datetime_dir']`:
the missing comma makes the adjacent string literals concatenate into the
single entry `'isTraindatetime'`.  The scaler branch (framework.py
129-134) only adds an extra `scaler_path` key and is not modelled; the
claim is about which existing fields are omitted. -/

/-- The `no_save` list exactly as the Python literal evaluates. -/
def no_save : List String :=
  ["dataloaders", "device", "isTraindatetime", "save_datetime_dir"]

/-- The saved key→value map: every attribute whose name is not in
`no_save` (framework.py 124-127). -/
def save_parameter {V : Type} (fields : List (String × V)) : List (String × V) :=
  fields.filter (fun p => p.1 ∉ no_save)

/-- Modelled from the spec's words (refinement target for C7, not from the
source): a saver that omits exactly the device handle and the data
loaders. -/
def save_parameter_spec {V : Type} (fields : List (String × V)) : List (String × V) :=
  fields.filter (fun p => p.1 ∉ ["dataloaders", "device"])

/-- **C7 counterexample.** On a parameter object with the usual fields,
the saved map omits `save_datetime_dir` — a field that is neither the
device handle nor the data loaders — so the claim that no other field is
omitted fails; the spec-described saver would have kept it.  (`isTrain`
and `datetime` are kept, because the exclusion list's missing comma fused
them into the unused key `isTraindatetime`.) -/
theorem save_parameter_omits_save_datetime_dir :
    save_parameter
        [("task", 1), ("device", 2), ("dataloaders", 3), ("save_datetime_dir", 4),
         ("isTrain", 5), ("datetime", 6)]
      = [("task", 1), ("isTrain", 5), ("datetime", 6)] ∧
    save_parameter_spec
        [("task", 1), ("device", 2), ("dataloaders", 3), ("save_datetime_dir", 4),
         ("isTrain", 5), ("datetime", 6)]
      = [("task", 1), ("save_datetime_dir", 4), ("isTrain", 5), ("datetime", 6)] := by
  constructor
  · decide
  · decide

/-- **C7 (amended).** The persisted map keeps exactly the fields whose
name is outside the exclusion list `[dataloaders, device,
isTraindatetime, save_datetime_dir]`; since no parameter object has a
field literally named `isTraindatetime` (the intended `isTrain` and
`datetime` entries were fused by a missing comma and are therefore
persisted), the omitted fields are the data loaders, the device handle,
and the save directory path. -/
theorem save_parameter_keeps_all_but_no_save {V : Type} (fields : List (String × V))
    (k : String) (v : V) :
    ((k, v) ∈ save_parameter fields ↔ (k, v) ∈ fields ∧ k ∉ no_save) ∧
    no_save = ["dataloaders", "device", "isTraindatetime", "save_datetime_dir"] := by
  constructor
  · simp [save_parameter, List.mem_filter]
  · rfl

/-- Witness for `save_parameter_keeps_all_but_no_save`: the `isTrain`
field is persisted. -/
theorem save_parameter_keeps_all_but_no_save_witness :
    ("isTrain", (5 : Nat)) ∈ save_parameter [("isTrain", (5 : Nat)), ("device", 2)] :=
  (save_parameter_keeps_all_but_no_save [("isTrain", (5 : Nat)), ("device", 2)]
    "isTrain" 5).1.mpr ⟨by decide, by decide⟩

/-! ## Weight loading order (`SaveLoadMixin.load_weight` framework.py 530-542,
`BaseModel._enable_on_gpu_if_available` framework.py 362-371)

The body of `load_weight` is modelled as the sequence of its effects:
`torch.load`, `load_state_dict` on the canonical network, the log line,
then `_enable_on_gpu_if_available`, which moves the network to the
device and wraps it in `nn.DataParallel` only when `gpu_ids` is
non-empty. -/

inductive WeightEvent where
  | torchLoad
  | loadStateDict
  | logInfo
  | toDevice
  | wrapDataParallel
deriving DecidableEq

/-- Effects of `_enable_on_gpu_if_available` (framework.py 362-371). -/
def enable_on_gpu_events (gpu_ids : List Nat) : List WeightEvent :=
  if gpu_ids ≠ [] then [WeightEvent.toDevice, WeightEvent.wrapDataParallel] else []

/-- Effects of `load_weight` (framework.py 530-542), in program order. -/
def load_weight_events (gpu_ids : List Nat) : List WeightEvent :=
  [WeightEvent.torchLoad, WeightEvent.loadStateDict, WeightEvent.logInfo]
    ++ enable_on_gpu_events gpu_ids

/-- **C8.** Within one `load_weight` call, whatever the device list, every
occurrence of the data-parallel replication event comes strictly after
every occurrence of the parameter-load event: replication never precedes
the load. -/
theorem load_weight_loads_before_replication (gpu_ids : List Nat) (i j : Nat)
    (hi : i < (load_weight_events gpu_ids).length)
    (hj : j < (load_weight_events gpu_ids).length)
    (h1 : (load_weight_events gpu_ids).get ⟨i, hi⟩ = WeightEvent.wrapDataParallel)
    (h2 : (load_weight_events gpu_ids).get ⟨j, hj⟩ = WeightEvent.loadStateDict) :
    j < i := by
  by_cases hg : gpu_ids = []
  · exfalso
    have hmem : WeightEvent.wrapDataParallel ∈ load_weight_events gpu_ids :=
      h1 ▸ List.get_mem _ _ _
    rw [hg] at hmem
    have hL : load_weight_events []
        = [WeightEvent.torchLoad, WeightEvent.loadStateDict, WeightEvent.logInfo] := by
      simp [load_weight_events, enable_on_gpu_events]
    rw [hL] at hmem
    exact absurd hmem (by decide)
  · simp only [load_weight_events, enable_on_gpu_events, ne_eq, hg, not_false_eq_true,
      if_true] at h1 h2 hi hj
    have hi5 : i < 5 := by simpa using hi
    have hj5 : j < 5 := by simpa using hj
    interval_cases i <;> interval_cases j <;> simp_all

/-- Witness for `load_weight_loads_before_replication`: with one GPU,
the load is at position 1 and the replication at position 4. -/
theorem load_weight_loads_before_replication_witness :
    ((load_weight_events [0]).get ⟨4, by decide⟩ = WeightEvent.wrapDataParallel ∧
     (load_weight_events [0]).get ⟨1, by decide⟩ = WeightEvent.loadStateDict) ∧
    1 < 4 :=
  ⟨⟨by decide, by decide⟩,
   load_weight_loads_before_replication [0] 4 1 (by decide) (by decide)
     (by decide) (by decide)⟩

/-! ## Best-epoch tracking (`BaseModel.is_total_val_loss_updated`, framework.py 452-461)

`is_total_val_loss_updated` delegates to
`loss_reg.epoch_loss['total'].is_val_loss_updated()`, whose implementation
lives in `lib/component.py`, which is not part of the sources; the
tracker below is modelled from the spec.  Validation total losses are
rationals. -/

/-- Modelled from the spec: the per-epoch best-model check of
`lib/component.py` (missing from the sources).  State: `none` before the
first epoch, else `(best_epoch, best_total_val_loss)`.  The check is true
iff the just-finalized validation total is strictly less than the best
seen so far (always true on the first epoch) and updates the state
exactly then. -/
def stepBest (st : Option (Nat × ℚ)) (epoch : Nat) (v : ℚ) : Bool × Option (Nat × ℚ) :=
  match st with
  | none => (true, some (epoch, v))
  | some (be, bv) => if v < bv then (true, some (epoch, v)) else (false, some (be, bv))

/-- Run the tracker over the validation totals of successive epochs,
starting from state `st` at epoch number `e`. -/
def runBestFrom (st : Option (Nat × ℚ)) (e : Nat) : List ℚ → Option (Nat × ℚ)
  | [] => st
  | v :: vs => runBestFrom (stepBest st e v).2 (e + 1) vs

/-- Tracker state after a whole training run (epochs numbered from 0). -/
def runBest (xs : List ℚ) : Option (Nat × ℚ) := runBestFrom none 0 xs

/-- The retained best epoch after each completed epoch. -/
def bestEpochSeqFrom (st : Option (Nat × ℚ)) (e : Nat) : List ℚ → List Nat
  | [] => []
  | v :: vs =>
    (match (stepBest st e v).2 with
     | some q => q.1
     | none => 0) :: bestEpochSeqFrom (stepBest st e v).2 (e + 1) vs

/-- Best-epoch sequence of a run starting at epoch 0. -/
def bestEpochSeq (xs : List ℚ) : List Nat := bestEpochSeqFrom none 0 xs

/-- `be` is the smallest index achieving the minimum of `xs`, with value
`bv`: everything before position `be` is strictly larger, everything
after is at least `bv`. -/
def EarliestMin (xs : List ℚ) (be : Nat) (bv : ℚ) : Prop :=
  ∃ a b, xs = a ++ bv :: b ∧ a.length = be ∧ (∀ u ∈ a, bv < u) ∧ (∀ u ∈ b, bv ≤ u)

lemma earliestMin_snoc_ge {xs : List ℚ} {be : Nat} {bv v : ℚ}
    (h : EarliestMin xs be bv) (hv : bv ≤ v) : EarliestMin (xs ++ [v]) be bv := by
  obtain ⟨a, b, hx, hl, ha, hb⟩ := h
  refine ⟨a, b ++ [v], ?_, hl, ha, ?_⟩
  · rw [hx]; simp
  · intro u hu
    rcases List.mem_append.1 hu with h | h
    · exact hb u h
    · rw [List.mem_singleton.1 h]; exact hv

lemma earliestMin_snoc_lt {xs : List ℚ} {be : Nat} {bv v : ℚ}
    (h : EarliestMin xs be bv) (hv : v < bv) : EarliestMin (xs ++ [v]) xs.length v := by
  obtain ⟨a, b, hx, hl, ha, hb⟩ := h
  refine ⟨xs, [], by simp, rfl, ?_, by simp⟩
  intro u hu
  rw [hx] at hu
  rcases List.mem_append.1 hu with h | h
  · exact lt_trans hv (ha u h)
  · rcases List.mem_cons.1 h with h | h
    · rw [h]; exact hv
    · exact lt_of_lt_of_le hv (hb u h)

lemma runBestFrom_earliestMin (vs : List ℚ) :
    ∀ (p : List ℚ) (be : Nat) (bv : ℚ), EarliestMin p be bv →
    ∃ be' bv', runBestFrom (some (be, bv)) p.length vs = some (be', bv') ∧
      EarliestMin (p ++ vs) be' bv' := by
  induction vs with
  | nil =>
      intro p be bv h
      exact ⟨be, bv, rfl, by simpa using h⟩
  | cons v vs ih =>
      intro p be bv h
      simp only [runBestFrom, stepBest]
      by_cases hv : v < bv
      · rw [if_pos hv]
        obtain ⟨be', bv', hrun, hEM⟩ :=
          ih (p ++ [v]) p.length v (earliestMin_snoc_lt h hv)
        rw [List.length_append, List.length_singleton] at hrun
        rw [List.append_assoc, List.singleton_append] at hEM
        exact ⟨be', bv', hrun, hEM⟩
      · rw [if_neg hv]
        obtain ⟨be', bv', hrun, hEM⟩ :=
          ih (p ++ [v]) be bv (earliestMin_snoc_ge h (le_of_not_lt hv))
        rw [List.length_append, List.length_singleton] at hrun
        rw [List.append_assoc, List.singleton_append] at hEM
        exact ⟨be', bv', hrun, hEM⟩

lemma runBest_cons (v : ℚ) (vs : List ℚ) :
    runBest (v :: vs) = runBestFrom (some (0, v)) 1 vs := rfl

lemma earliestMin_singleton (v : ℚ) : EarliestMin [v] 0 v :=
  ⟨[], [], rfl, rfl, by simp, by simp⟩

/-- **C4.** (spec-modelled) (i) After any sequence of prior epochs, the
best-model check returns true at the next epoch iff its validation total
is strictly less than every prior epoch's validation total — vacuously
true on the first epoch.  (ii) Whenever the tracker holds a best epoch
and value, that epoch is the smallest index achieving the running
minimum of the validation totals so far (so ties do not displace it).
(iii) For validation totals `[0.9, 0.7, 0.7, 0.5]` over epochs 0-3 the
best-epoch sequence after each epoch is `[0, 1, 1, 3]`. -/
theorem is_total_val_loss_updated_spec :
    (∀ (prior : List ℚ) (e : Nat) (v : ℚ),
        (stepBest (runBest prior) e v).1 = true ↔ ∀ u ∈ prior, v < u) ∧
    (∀ (xs : List ℚ) (be : Nat) (bv : ℚ), runBest xs = some (be, bv) →
        EarliestMin xs be bv) ∧
    bestEpochSeq [(9 : ℚ)/10, 7/10, 7/10, 5/10] = [0, 1, 1, 3] := by
  have main : ∀ (xs : List ℚ) (be : Nat) (bv : ℚ), runBest xs = some (be, bv) →
      EarliestMin xs be bv := by
    intro xs be bv hrun
    match xs with
    | [] => exact absurd hrun (by simp [runBest, runBestFrom])
    | v :: vs =>
        rw [runBest_cons] at hrun
        obtain ⟨be', bv', hrun', hEM⟩ :=
          runBestFrom_earliestMin vs [v] 0 v (earliestMin_singleton v)
        rw [List.length_singleton] at hrun'
        rw [hrun'] at hrun
        obtain ⟨h1, h2⟩ := Prod.mk.injEq .. ▸ Option.some.injEq _ _ ▸ hrun
        rw [← h1, ← h2]
        simpa using hEM
  refine ⟨?_, main, ?_⟩
  · intro prior e v
    match hp : prior with
    | [] => simp [runBest, runBestFrom, stepBest]
    | w :: ws =>
        have hx : ∃ be bv, runBest (w :: ws) = some (be, bv) := by
          rw [runBest_cons]
          obtain ⟨be', bv', hrun', -⟩ :=
            runBestFrom_earliestMin ws [w] 0 w (earliestMin_singleton w)
          rw [List.length_singleton] at hrun'
          exact ⟨be', bv', hrun'⟩
        obtain ⟨be, bv, hrun⟩ := hx
        have hEM := main _ _ _ hrun
        rw [hrun]
        obtain ⟨a, b, hdecomp, -, ha, hb⟩ := hEM
        constructor
        · intro hflag u hu
          have hvbv : v < bv := by
            by_contra hc
            simp only [stepBest, if_neg hc] at hflag
            exact absurd hflag (by decide)
          rw [hdecomp] at hu
          rcases List.mem_append.1 hu with h | h
          · exact lt_trans hvbv (ha u h)
          · rcases List.mem_cons.1 h with h | h
            · rw [h]; exact hvbv
            · exact lt_of_lt_of_le hvbv (hb u h)
        · intro hall
          have hbvmem : bv ∈ w :: ws := by
            rw [hdecomp]
            exact List.mem_append.2 (Or.inr (List.mem_cons_self _ _))
          have hvbv : v < bv := hall bv hbvmem
          simp [stepBest, if_pos hvbv]
  · norm_num [bestEpochSeq, bestEpochSeqFrom, runBestFrom, stepBest]

/-- Witness for `is_total_val_loss_updated_spec`: on the run `[2, 1]` the
tracker ends at epoch 1 with value 1, which is the earliest minimum. -/
theorem is_total_val_loss_updated_spec_witness :
    runBest [(2 : ℚ), 1] = some (1, 1) ∧ EarliestMin [(2 : ℚ), 1] 1 1 :=
  ⟨by norm_num [runBest, runBestFrom, stepBest],
   is_total_val_loss_updated_spec.2.1 [(2 : ℚ), 1] 1 1
     (by norm_num [runBest, runBestFrom, stepBest])⟩

/-! ## Dataset-root extraction (`BaseModelParam.__init__`, framework.py 28-37)

Line 36 is `re.findall('(.*)/docs', self.csvpath)[0]`.  The regex engine
is modelled over the character list of the path: a match attempt at
position `p` lets `(.*)` greedily consume non-newline characters and
backtrack to the largest position `q` at which the literal `/docs`
matches; `findall` scans attempt positions from the left; indexing `[0]`
into an empty result list raises `IndexError`. -/

/-- The literal part `/docs` of the pattern. -/
def docs_pat : List Char := ['/', 'd', 'o', 'c', 's']

/-- The literal `/docs` matches at position `q` of `s`. -/
def isDocsAt (s : List Char) (q : Nat) : Bool := docs_pat.isPrefixOf (s.drop q)

/-- How many characters `.*` may consume from the front of a suffix
(up to the first newline, which `.` does not match). -/
def lineLen : List Char → Nat
  | [] => 0
  | c :: cs => if c = '\n' then 0 else lineLen cs + 1

/-- Greedy backtracking of `(.*)`: the largest `q` in `[p, p + k]` at
which `/docs` matches. -/
def greedyDown (s : List Char) (p : Nat) : Nat → Option Nat
  | 0 => if isDocsAt s p then some p else none
  | k + 1 => if isDocsAt s (p + (k + 1)) then some (p + (k + 1)) else greedyDown s p k

/-- One match attempt of `(.*)/docs` starting at position `p`:
the group-1 capture on success. -/
def matchCaptureAt (s : List Char) (p : Nat) : Option (List Char) :=
  match greedyDown s p (lineLen (s.drop p)) with
  | some q => some ((s.drop p).take (q - p))
  | none => none

/-- Scan of attempt positions from the left. -/
def scanAux (s : List Char) (p : Nat) : Nat → Option (List Char)
  | 0 => none
  | fuel + 1 =>
    match matchCaptureAt s p with
    | some c => some c
    | none => scanAux s (p + 1) fuel

/-- Capture of the first match of `re.findall('(.*)/docs', s)`, if any. -/
def findall_docs_head (s : List Char) : Option (List Char) := scanAux s 0 (s.length + 1)

/-- Executable test for the substring `/docs`. -/
def hasDocsSub (s : List Char) : Bool :=
  (List.range (s.length + 1)).any (fun q => isDocsAt s q)

inductive PyError where
  | indexError
deriving DecidableEq

/-- `self._dataset_dir = re.findall('(.*)/docs', self.csvpath)[0]`
(framework.py 36), run by every `BaseModelParam` construction (training
and test): `[0]` on an empty `findall` result raises `IndexError`. -/
def base_model_param_dataset_dir (csvpath : String) : Except PyError String :=
  match findall_docs_head csvpath.data with
  | some c => Except.ok (String.mk c)
  | none => Except.error PyError.indexError

lemma isPrefixOf_iff (pat : List Char) : ∀ l : List Char,
    pat.isPrefixOf l = true ↔ ∃ t, l = pat ++ t := by
  induction pat with
  | nil =>
      intro l
      simp [List.isPrefixOf]
  | cons a as ih =>
      intro l
      cases l with
      | nil => simp [List.isPrefixOf]
      | cons b bs =>
          simp only [List.isPrefixOf, Bool.and_eq_true, beq_iff_eq, ih, List.cons_append,
            List.cons.injEq]
          constructor
          · rintro ⟨rfl, t, rfl⟩
            exact ⟨t, rfl, rfl⟩
          · rintro ⟨t, rfl, rfl⟩
            exact ⟨rfl, t, rfl⟩

lemma isDocsAt_le (s : List Char) (q : Nat) (h : isDocsAt s q = true) : q ≤ s.length := by
  obtain ⟨t, ht⟩ := (isPrefixOf_iff docs_pat (s.drop q)).1 h
  have hlen := congrArg List.length ht
  simp [List.length_drop, docs_pat] at hlen
  omega

lemma isDocsAt_hasDocs {s : List Char} {q : Nat} (h : isDocsAt s q = true) :
    hasDocsSub s = true := by
  have hle := isDocsAt_le s q h
  unfold hasDocsSub
  rw [List.any_eq_true]
  exact ⟨q, List.mem_range.2 (by omega), h⟩

lemma hasDocs_exists {s : List Char} (h : hasDocsSub s = true) :
    ∃ q, q < s.length + 1 ∧ isDocsAt s q = true := by
  unfold hasDocsSub at h
  rw [List.any_eq_true] at h
  obtain ⟨q, hq, hd⟩ := h
  exact ⟨q, List.mem_range.1 hq, hd⟩

lemma greedyDown_some (s : List Char) (p : Nat) :
    ∀ (k q : Nat), greedyDown s p k = some q → isDocsAt s q = true := by
  intro k
  induction k with
  | zero =>
      intro q h
      by_cases hd : isDocsAt s p
      · simp only [greedyDown, if_pos hd, Option.some.injEq] at h
        rw [← h]; exact hd
      · simp [greedyDown, hd] at h
  | succ k ih =>
      intro q h
      by_cases hd : isDocsAt s (p + (k + 1))
      · simp only [greedyDown, if_pos hd, Option.some.injEq] at h
        rw [← h]; exact hd
      · simp only [greedyDown, if_neg hd] at h
        exact ih q h

lemma greedyDown_of_isDocsAt (s : List Char) (p : Nat) (hd : isDocsAt s p = true) :
    ∀ k, ∃ q, greedyDown s p k = some q := by
  intro k
  induction k with
  | zero => exact ⟨p, by simp [greedyDown, hd]⟩
  | succ k ih =>
      by_cases hd' : isDocsAt s (p + (k + 1))
      · exact ⟨p + (k + 1), by simp [greedyDown, hd']⟩
      · obtain ⟨q, hq⟩ := ih
        exact ⟨q, by simp [greedyDown, hd', hq]⟩

lemma matchCaptureAt_some (s : List Char) (p : Nat) (c : List Char)
    (h : matchCaptureAt s p = some c) : ∃ q, isDocsAt s q = true := by
  unfold matchCaptureAt at h
  cases hg : greedyDown s p (lineLen (s.drop p)) with
  | none => rw [hg] at h; exact Option.noConfusion h
  | some q => exact ⟨q, greedyDown_some s p _ q hg⟩

lemma matchCaptureAt_of_isDocsAt (s : List Char) (p : Nat) (hd : isDocsAt s p = true) :
    ∃ c, matchCaptureAt s p = some c := by
  obtain ⟨q, hq⟩ := greedyDown_of_isDocsAt s p hd (lineLen (s.drop p))
  exact ⟨(s.drop p).take (q - p), by simp [matchCaptureAt, hq]⟩

lemma scanAux_isDocsAt (s : List Char) :
    ∀ (fuel p : Nat) (c : List Char), scanAux s p fuel = some c →
      ∃ q, isDocsAt s q = true := by
  intro fuel
  induction fuel with
  | zero => intro p c h; exact Option.noConfusion h
  | succ fuel ih =>
      intro p c h
      cases hm : matchCaptureAt s p with
      | some c' => exact matchCaptureAt_some s p c' hm
      | none =>
          simp only [scanAux, hm] at h
          exact ih (p + 1) c h

lemma scanAux_some (s : List Char) :
    ∀ (fuel p p0 : Nat), p ≤ p0 → p0 < p + fuel →
      (∃ c, matchCaptureAt s p0 = some c) → ∃ c, scanAux s p fuel = some c := by
  intro fuel
  induction fuel with
  | zero =>
      intro p p0 h1 h2 _
      exact absurd h2 (by omega)
  | succ fuel ih =>
      intro p p0 h1 h2 hm
      cases hcase : matchCaptureAt s p with
      | some c => exact ⟨c, by simp [scanAux, hcase]⟩
      | none =>
          have hne : p0 ≠ p := by
            intro h
            obtain ⟨c, hc⟩ := hm
            rw [h, hcase] at hc
            exact Option.noConfusion hc
          obtain ⟨c, hc⟩ := ih (p + 1) p0 (by omega) (by omega) hm
          exact ⟨c, by simp [scanAux, hcase, hc]⟩

/-- **C9.** Every configuration construction extracts the dataset root by
matching `(.*)/docs` against the CSV path: when the path has no `/docs`
substring the construction fails with an uncaught `IndexError` instead of
producing a configuration object, and when it does contain `/docs` the
extraction succeeds.  (`hasDocsSub` is exactly "contains the substring
`/docs`", as the last two conjuncts state.) -/
theorem dataset_dir_requires_docs (s : String) :
    (hasDocsSub s.data = false →
        base_model_param_dataset_dir s = Except.error PyError.indexError) ∧
    (hasDocsSub s.data = true → ∃ d, base_model_param_dataset_dir s = Except.ok d) ∧
    (∀ a b : List Char, s.data = a ++ docs_pat ++ b → hasDocsSub s.data = true) ∧
    (hasDocsSub s.data = true → ∃ a b : List Char, s.data = a ++ docs_pat ++ b) := by
  refine ⟨?_, ?_, ?_, ?_⟩
  · intro hfalse
    unfold base_model_param_dataset_dir
    cases hf : findall_docs_head s.data with
    | none => rfl
    | some c =>
        exfalso
        obtain ⟨q, hq⟩ := scanAux_isDocsAt s.data _ _ _ hf
        have htrue := isDocsAt_hasDocs hq
        rw [hfalse] at htrue
        exact Bool.noConfusion htrue
  · intro htrue
    obtain ⟨q, hqlt, hq⟩ := hasDocs_exists htrue
    obtain ⟨c, hc⟩ := matchCaptureAt_of_isDocsAt s.data q hq
    obtain ⟨c', hc'⟩ :=
      scanAux_some s.data (s.data.length + 1) 0 q (Nat.zero_le _) (by omega) ⟨c, hc⟩
    refine ⟨String.mk c', ?_⟩
    unfold base_model_param_dataset_dir findall_docs_head
    rw [hc']
  · intro a b hab
    apply isDocsAt_hasDocs (q := a.length)
    unfold isDocsAt
    rw [hab, List.append_assoc, List.drop_left, isPrefixOf_iff]
    exact ⟨b, rfl⟩
  · intro htrue
    obtain ⟨q, hqlt, hq⟩ := hasDocs_exists htrue
    obtain ⟨t, ht⟩ := (isPrefixOf_iff docs_pat (s.data.drop q)).1 hq
    refine ⟨s.data.take q, t, ?_⟩
    calc s.data = s.data.take q ++ s.data.drop q := (List.take_append_drop q s.data).symm
    _ = s.data.take q ++ (docs_pat ++ t) := by rw [ht]
    _ = s.data.take q ++ docs_pat ++ t := (List.append_assoc _ _ _).symm

/-- Witness for `dataset_dir_requires_docs`: a path without `/docs` fails
with `IndexError`; one with `/docs` succeeds. -/
theorem dataset_dir_requires_docs_witness :
    (hasDocsSub ("materials/a.csv" : String).data = false ∧
      base_model_param_dataset_dir "materials/a.csv" = Except.error PyError.indexError) ∧
    (hasDocsSub ("materials/docs/a.csv" : String).data = true ∧
      ∃ d, base_model_param_dataset_dir "materials/docs/a.csv" = Except.ok d) :=
  ⟨⟨by decide, (dataset_dir_requires_docs "materials/a.csv").1 (by decide)⟩,
   ⟨by decide, (dataset_dir_requires_docs "materials/docs/a.csv").2.1 (by decide)⟩⟩

/-! ## Per-epoch checkpoint policy (`train.py` 47-52)

The end-of-epoch block of the training loop is

    if model.is_total_val_loss_updated():
        model.store_weight()
        if (epoch > 0) and (model.save_weight_policy == 'each'):
            model.save_weight(as_best=False)

`store_weight` records the in-memory snapshot and sets
`acting_best_epoch` to the tracker's best epoch (which equals the current
epoch whenever the check just returned true); `save_weight(as_best=False)`
writes the weight file named by `acting_best_epoch`.  The loop state
tracks the best-model tracker (spec-modelled `stepBest`, see above), the
in-memory `acting_best_epoch`, and the epoch indices of the non-best
weight files written so far. -/

structure LoopState where
  best : Option (Nat × ℚ)
  acting_best_epoch : Option Nat
  files : List Nat
deriving DecidableEq

def init_loop_state : LoopState := ⟨none, none, []⟩

/-- The end-of-epoch block of `train.py` 49-52 at epoch `e` with
validation total `v`. -/
def epoch_checkpoint_step (policy : String) (e : Nat) (v : ℚ) (s : LoopState) : LoopState :=
  let r := stepBest s.best e v
  if r.1 then
    { best := r.2,
      acting_best_epoch := r.2.map Prod.fst,
      files := if 0 < e ∧ policy = "each" then s.files ++ (r.2.map Prod.fst).toList
               else s.files }
  else
    { s with best := r.2 }

def train_checkpoint_loop_from (policy : String) : Nat → LoopState → List ℚ → LoopState
  | _, s, [] => s
  | e, s, v :: vs =>
      train_checkpoint_loop_from policy (e + 1) (epoch_checkpoint_step policy e v s) vs

/-- The whole training loop over the per-epoch validation totals. -/
def train_checkpoint_loop (policy : String) (val_losses : List ℚ) : LoopState :=
  train_checkpoint_loop_from policy 0 init_loop_state val_losses

/-- The per-epoch outcomes of the best-model check along a run. -/
def updatedFlagsFrom (st : Option (Nat × ℚ)) (e : Nat) : List ℚ → List Bool
  | [] => []
  | v :: vs => (stepBest st e v).1 :: updatedFlagsFrom (stepBest st e v).2 (e + 1) vs

lemma stepBest_true (st : Option (Nat × ℚ)) (e : Nat) (v : ℚ)
    (h : (stepBest st e v).1 = true) : (stepBest st e v).2 = some (e, v) := by
  cases st with
  | none => rfl
  | some p =>
      obtain ⟨be, bv⟩ := p
      by_cases hv : v < bv
      · simp [stepBest, if_pos hv]
      · simp only [stepBest, if_neg hv] at h
        exact absurd h (by decide)

lemma epoch_checkpoint_step_best (policy : String) (e : Nat) (v : ℚ) (s : LoopState) :
    (epoch_checkpoint_step policy e v s).best = (stepBest s.best e v).2 := by
  unfold epoch_checkpoint_step
  by_cases hf : (stepBest s.best e v).1 = true
  · simp [hf]
  · simp [hf]

lemma epoch_checkpoint_step_files (policy : String) (e : Nat) (v : ℚ) (s : LoopState) :
    (epoch_checkpoint_step policy e v s).files
      = s.files ++ (if (stepBest s.best e v).1 = true ∧ 0 < e ∧ policy = "each"
                    then [e] else []) := by
  unfold epoch_checkpoint_step
  by_cases hf : (stepBest s.best e v).1 = true
  · have h2 := stepBest_true s.best e v hf
    by_cases hc : 0 < e ∧ policy = "each"
    · simp [hf, h2, hc]
    · simp [hf, hc]
  · simp only [hf]
    have hcond : ¬ ((stepBest s.best e v).1 = true ∧ 0 < e ∧ policy = "each") :=
      fun hco => hf hco.1
    simp [Bool.not_eq_true] at hf
    simp [hf, hcond]

lemma train_loop_files (policy : String) (xs : List ℚ) :
    ∀ (e : Nat) (s : LoopState),
      (train_checkpoint_loop_from policy e s xs).files
        = s.files ++
          (List.zip (updatedFlagsFrom s.best e xs) (List.range' e xs.length)).filterMap
            (fun p => if p.1 = true ∧ 0 < p.2 ∧ policy = "each" then some p.2 else none) := by
  induction xs with
  | nil => intro e s; simp [train_checkpoint_loop_from, updatedFlagsFrom]
  | cons v vs ih =>
      intro e s
      have hstep : train_checkpoint_loop_from policy e s (v :: vs)
          = train_checkpoint_loop_from policy (e + 1) (epoch_checkpoint_step policy e v s) vs :=
        rfl
      rw [hstep, ih, epoch_checkpoint_step_files, epoch_checkpoint_step_best]
      simp only [updatedFlagsFrom, List.length_cons, List.range'_succ, List.zip_cons_cons,
        List.filterMap_cons]
      by_cases hc : (stepBest s.best e v).1 = true ∧ 0 < e ∧ policy = "each"
      · rw [if_pos hc, if_pos hc]
        simp [List.append_assoc]
      · rw [if_neg hc, if_neg hc]
        simp [List.append_assoc]

/-- **C10.** Under any save policy: (i) the first epoch's improvement
(the check is always true at epoch 0) records the snapshot in memory
(`acting_best_epoch := 0`) and writes no weight file; (ii) the files
written over a whole run are exactly the epochs whose best-model check
returned true, with index greater than 0, under policy `each`; hence
(iii) every written file belongs to an epoch with index greater
than 0. -/
theorem store_weight_epoch_zero_memory_only (policy : String) (xs : List ℚ) (v : ℚ)
    (e : Nat) :
    (epoch_checkpoint_step policy 0 v init_loop_state
        = { best := some (0, v), acting_best_epoch := some 0, files := [] }) ∧
    ((train_checkpoint_loop policy xs).files
        = (List.zip (updatedFlagsFrom none 0 xs) (List.range' 0 xs.length)).filterMap
            (fun p => if p.1 = true ∧ 0 < p.2 ∧ policy = "each" then some p.2 else none)) ∧
    (e ∈ (train_checkpoint_loop policy xs).files → 0 < e) := by
  have hfiles := train_loop_files policy xs 0 init_loop_state
  refine ⟨?_, ?_, ?_⟩
  · simp [epoch_checkpoint_step, stepBest, init_loop_state]
  · rw [train_checkpoint_loop, hfiles]
    simp [init_loop_state]
  · intro hmem
    rw [train_checkpoint_loop, hfiles] at hmem
    simp only [init_loop_state, List.nil_append, List.mem_filterMap] at hmem
    obtain ⟨⟨flag, ep⟩, _, hif⟩ := hmem
    by_cases hc : flag = true ∧ 0 < ep ∧ policy = "each"
    · rw [if_pos hc] at hif
      obtain ⟨-, h0, -⟩ := hc
      rw [Option.some.injEq] at hif
      rw [← hif]
      exact h0
    · rw [if_neg hc] at hif
      exact Option.noConfusion hif

/-- Witness for `store_weight_epoch_zero_memory_only`: the run
`[0.9, 0.7]` under policy `each` writes exactly the epoch-1 file, and
that epoch index is positive. -/
theorem store_weight_epoch_zero_memory_only_witness :
    1 ∈ (train_checkpoint_loop "each" [(9 : ℚ)/10, 7/10]).files ∧ 0 < 1 :=
  ⟨by norm_num [train_checkpoint_loop, train_checkpoint_loop_from, epoch_checkpoint_step,
      stepBest, init_loop_state],
   (store_weight_epoch_zero_memory_only "each" [(9 : ℚ)/10, 7/10] 0 1).2.2
     (by norm_num [train_checkpoint_loop, train_checkpoint_loop_from, epoch_checkpoint_step,
        stepBest, init_loop_state])⟩

end Nervus
